import Mathlib

/-!
Verification development for the hotel bill generator
(`streamlit_hotel_bill.py`).  The Python source is shallowly embedded:
pure helpers become Lean functions over `ℚ`, `String` and `List`;
calls to the global random source become explicit oracle parameters
(an index for `random.choice`, a natural number `n` with
`randint(a, b) = a + n % (b - a + 1)`, a rational for `random.uniform`);
code that can raise returns `Except Unit` / `Option`.
-/

namespace HotelBill

/-! Rounding.

Python's `round(x, 2)` and its 2-decimal string formatting both round
half to even.
`roundHalfEven q` is the integer Python's `round(q)` returns; `round2` is
`round(q, 2)`. -/

def roundHalfEven (q : ℚ) : ℤ :=
  if Int.fract q < 1/2 then ⌊q⌋
  else if 1/2 < Int.fract q then ⌊q⌋ + 1
  else if ⌊q⌋ % 2 = 0 then ⌊q⌋ else ⌊q⌋ + 1

def round2 (q : ℚ) : ℚ := (roundHalfEven (100 * q) : ℚ) / 100

/-- The numeric value displayed by `money(x)` (whose format rounds to
two decimal places with comma grouping):
`x` rounded to 2 decimal places, half to even. -/
def displayedMoney (x : ℚ) : ℚ := round2 x

theorem abs_roundHalfEven_sub (q : ℚ) : |(roundHalfEven q : ℚ) - q| ≤ 1/2 := by
  have h0 : 0 ≤ Int.fract q := Int.fract_nonneg q
  have h1 : Int.fract q < 1 := Int.fract_lt_one q
  have hf : (⌊q⌋ : ℚ) = q - Int.fract q := by
    rw [Int.self_sub_fract]
  unfold roundHalfEven
  split_ifs with h2 h3 h4
  · rw [abs_le]
    constructor <;> [linarith [hf]; linarith [hf]]
  · rw [abs_le]
    push_cast
    constructor <;> [linarith [hf]; linarith [hf]]
  · rw [abs_le]
    have h5 : Int.fract q = 1/2 := by linarith
    constructor <;> [linarith [hf, h5]; linarith [hf, h5]]
  · rw [abs_le]
    have h5 : Int.fract q = 1/2 := by linarith
    push_cast
    constructor <;> [linarith [hf, h5]; linarith [hf, h5]]

theorem floor_le_roundHalfEven (q : ℚ) : ⌊q⌋ ≤ roundHalfEven q := by
  unfold roundHalfEven
  split_ifs <;> omega

theorem roundHalfEven_le_ceil (q : ℚ) : roundHalfEven q ≤ ⌈q⌉ := by
  have hfc : ⌊q⌋ ≤ ⌈q⌉ := Int.floor_le_ceil q
  have key : ∀ h : (1:ℚ)/2 ≤ Int.fract q, ⌊q⌋ + 1 ≤ ⌈q⌉ := by
    intro h
    by_contra hc
    push_neg at hc
    have hcq : ⌈q⌉ ≤ ⌊q⌋ := by omega
    have h2 : q ≤ (⌊q⌋ : ℚ) := by
      calc q ≤ (⌈q⌉ : ℚ) := Int.le_ceil q
        _ ≤ (⌊q⌋ : ℚ) := by exact_mod_cast hcq
    have h3 : Int.fract q ≤ 0 := by
      have h4 : (⌊q⌋ : ℚ) = q - Int.fract q := by rw [Int.self_sub_fract]
      linarith
    linarith
  unfold roundHalfEven
  split_ifs with h2 h3 h4
  · exact hfc
  · exact key (le_of_lt h3)
  · exact hfc
  · exact key (by linarith)

theorem roundHalfEven_intCast (n : ℤ) : roundHalfEven (n : ℚ) = n := by
  unfold roundHalfEven
  rw [Int.fract_intCast, Int.floor_intCast]
  norm_num

theorem abs_round2_sub (x : ℚ) : |round2 x - x| ≤ 1/200 := by
  have heq : round2 x - x = ((roundHalfEven (100 * x) : ℚ) - 100 * x) / 100 := by
    unfold round2; ring
  rw [heq, abs_div, abs_of_pos (by norm_num : (0:ℚ) < 100)]
  linarith [abs_roundHalfEven_sub (100 * x)]

theorem round2_le_add (x : ℚ) : round2 x ≤ x + 1/200 := by
  have h := abs_round2_sub x
  rw [abs_le] at h
  linarith [h.2]

theorem round2_le_500 {x : ℚ} (h : x ≤ 500) : round2 x ≤ 500 := by
  have hc : ⌈(100 : ℚ) * x⌉ ≤ 50000 := by
    rw [Int.ceil_le]
    push_cast
    linarith
  have h2 : roundHalfEven (100 * x) ≤ 50000 := le_trans (roundHalfEven_le_ceil _) hc
  unfold round2
  rw [div_le_iff₀ (by norm_num : (0:ℚ) < 100)]
  have h3 : ((roundHalfEven (100 * x) : ℤ) : ℚ) ≤ ((50000 : ℤ) : ℚ) := by
    exact_mod_cast h2
  push_cast at h3
  linarith

theorem le_round2_500 {x : ℚ} (h : 500 ≤ x) : 500 ≤ round2 x := by
  have hc : 50000 ≤ ⌊(100 : ℚ) * x⌋ := by
    rw [Int.le_floor]
    push_cast
    linarith
  have h2 : 50000 ≤ roundHalfEven (100 * x) := le_trans hc (floor_le_roundHalfEven _)
  unfold round2
  rw [le_div_iff₀ (by norm_num : (0:ℚ) < 100)]
  have h3 : ((50000 : ℤ) : ℚ) ≤ ((roundHalfEven (100 * x) : ℤ) : ℚ) := by
    exact_mod_cast h2
  push_cast at h3
  linarith

theorem round2_500 : round2 500 = 500 := by
  unfold round2
  have : (100 : ℚ) * 500 = ((50000 : ℤ) : ℚ) := by norm_num
  rw [this, roundHalfEven_intCast]
  norm_num

theorem max500_round2_comm (x : ℚ) : max 500 (round2 x) = round2 (max 500 x) := by
  rcases le_total x 500 with h | h
  · rw [max_eq_left (round2_le_500 h), max_eq_left h, round2_500]
  · rw [max_eq_right (le_round2_500 h), max_eq_right h]

theorem round2_int (n : ℤ) : round2 (n : ℚ) = n := by
  unfold round2
  have h : (100 : ℚ) * n = ((100 * n : ℤ) : ℚ) := by push_cast; ring
  rw [h, roundHalfEven_intCast]
  push_cast
  ring

theorem round2_round2 (x : ℚ) : round2 (round2 x) = round2 x := by
  have h : (100 : ℚ) * round2 x = ((roundHalfEven (100 * x) : ℤ) : ℚ) := by
    unfold round2; ring
  show ((roundHalfEven (100 * round2 x) : ℤ) : ℚ) / 100 = round2 x
  rw [h, roundHalfEven_intCast]
  rfl

/-! Line items and the totals computed by `create_pdf_bytes`
(lines 389-422 of `streamlit_hotel_bill.py`). -/

structure Item where
  desc : String
  qty : ℤ
  rate : ℚ
  deriving DecidableEq, Repr

/-- The per-row `amount = qty * rate` (line 394). -/
def lineAmount (it : Item) : ℚ := it.qty * it.rate

/-- The running `subtotal` accumulated by the row loop:
starts at `0.0` and adds the unrounded `amount` of each row
(lines 389, 395). -/
def subtotalOf (items : List Item) : ℚ :=
  items.foldl (fun s it => s + lineAmount it) 0

structure Totals where
  subtotal : ℚ
  gstAmount : ℚ
  grandTotal : ℚ

/-- The totals block of `create_pdf_bytes` (lines 411-413):
`gst_amount = round(subtotal * gst_percent / 100.0, 2)` and
`grand_total = round(subtotal + gst_amount, 2)`. -/
def createPdfTotals (items : List Item) (gstPercent : ℚ) : Totals :=
  let subtotal := subtotalOf items
  let gstAmount := round2 (subtotal * gstPercent / 100)
  let grandTotal := round2 (subtotal + gstAmount)
  ⟨subtotal, gstAmount, grandTotal⟩

theorem subtotalOf_eq_sum (items : List Item) :
    subtotalOf items = (items.map lineAmount).sum := by
  have h : ∀ (l : List Item) (a : ℚ),
      l.foldl (fun s it => s + lineAmount it) a = a + (l.map lineAmount).sum := by
    intro l
    induction l with
    | nil => intro a; simp
    | cons x xs ih =>
        intro a
        simp only [List.foldl_cons, List.map_cons, List.sum_cons, ih]
        ring
  unfold subtotalOf
  rw [h]
  ring

/-- Claim C1.  For every items list and tax percent, the grand total rendered by
the totals block equals `round2(subtotal + round2(subtotal * taxPercent / 100))`
where `subtotal` is the (unrounded) sum of `qty * rate` over the items: the tax
amount is first computed from the subtotal and rounded to 2 places, then added
to the subtotal and rounded again.  The displayed string shows exactly this
value since it is already rounded to 2 places. -/
theorem grand_total_formula (items : List Item) (gstPercent : ℚ) :
    displayedMoney (createPdfTotals items gstPercent).grandTotal =
      round2 ((items.map lineAmount).sum +
        round2 ((items.map lineAmount).sum * gstPercent / 100)) ∧
    (createPdfTotals items gstPercent).grandTotal =
      round2 ((items.map lineAmount).sum +
        round2 ((items.map lineAmount).sum * gstPercent / 100)) := by
  have h : (createPdfTotals items gstPercent).grandTotal =
      round2 ((items.map lineAmount).sum +
        round2 ((items.map lineAmount).sum * gstPercent / 100)) := by
    unfold createPdfTotals
    simp only [subtotalOf_eq_sum]
  exact ⟨by rw [displayedMoney, h, round2_round2], h⟩

theorem sum_round2_bound (l : List ℚ) :
    |(l.map round2).sum - l.sum| ≤ l.length * (1/200) := by
  induction l with
  | nil => simp
  | cons x xs ih =>
      simp only [List.map_cons, List.sum_cons, List.length_cons]
      have hx := abs_round2_sub x
      calc |round2 x + (xs.map round2).sum - (x + xs.sum)|
          = |(round2 x - x) + ((xs.map round2).sum - xs.sum)| := by ring_nf
        _ ≤ |round2 x - x| + |(xs.map round2).sum - xs.sum| := abs_add _ _
        _ ≤ 1/200 + xs.length * (1/200) := add_le_add hx ih
        _ ≤ (xs.length + 1) * (1/200) := by ring_nf; linarith
        _ = (↑(xs.length + 1)) * (1/200) := by push_cast; ring

/-- Claim C2.  The subtotal accumulated by the row loop is the unrounded sum of
`qty * rate` over all items (rounding happens only at display time), and the
displayed subtotal differs from the sum of the displayed per-row amounts by at
most one cent per row. -/
theorem subtotal_unrounded_sum (items : List Item) (gstPercent : ℚ) :
    (createPdfTotals items gstPercent).subtotal = (items.map lineAmount).sum ∧
    |displayedMoney (createPdfTotals items gstPercent).subtotal -
        (items.map (fun it => displayedMoney (lineAmount it))).sum| ≤
      items.length * (1/100) := by
  have h1 : (createPdfTotals items gstPercent).subtotal =
      (items.map lineAmount).sum := by
    unfold createPdfTotals
    simp only [subtotalOf_eq_sum]
  refine ⟨h1, ?_⟩
  rw [h1]
  cases items with
  | nil => simp [displayedMoney, round2, roundHalfEven]
  | cons x xs =>
      set l := (x :: xs).map lineAmount with hl
      have hlen : l.length = xs.length + 1 := by simp [hl]
      have h2 := abs_round2_sub l.sum
      have h3 := sum_round2_bound l
      have h4 : ((x :: xs).map (fun it => displayedMoney (lineAmount it))).sum =
          (l.map round2).sum := by
        rw [hl, List.map_map]
        rfl
      rw [h4]
      have h5 : |round2 l.sum - (l.map round2).sum| ≤
          |round2 l.sum - l.sum| + |(l.map round2).sum - l.sum| := by
        have := abs_sub (round2 l.sum - l.sum) ((l.map round2).sum - l.sum)
        calc |round2 l.sum - (l.map round2).sum|
            = |(round2 l.sum - l.sum) - ((l.map round2).sum - l.sum)| := by ring_nf
          _ ≤ |round2 l.sum - l.sum| + |(l.map round2).sum - l.sum| := abs_sub _ _
      have h6 : (l.length : ℚ) = xs.length + 1 := by rw [hlen]; push_cast; ring
      have h7 : ((x :: xs).length : ℚ) = xs.length + 1 := by simp
      rw [displayedMoney]
      calc |round2 l.sum - (l.map round2).sum|
          ≤ |round2 l.sum - l.sum| + |(l.map round2).sum - l.sum| := h5
        _ ≤ 1/200 + l.length * (1/200) := add_le_add h2 h3
        _ = 1/200 + (xs.length + 1) * (1/200) := by rw [h6]
        _ ≤ (xs.length + 1) * (1/100) := by
            have : (0:ℚ) ≤ xs.length := by positivity
            ring_nf
            linarith
        _ = ((x :: xs).length : ℚ) * (1/100) := by rw [h7]

/-! Pagination (row loop of `create_pdf_bytes`, lines 391-409)

Each row is drawn at the current cursor `y` on the current page; then
`y -= 16` and, if `y < -500`, `c.showPage()` starts a new page and the
cursor resets to `-40`.  `emitRows y pg items` returns the list of
`(page, item)` pairs in emission order together with the final page
counter and cursor.  Pages count from 0; `showPage` increments the
counter, so a final counter of at least 1 means a page boundary was
inserted. -/

def emitRows : ℚ → ℕ → List Item → List (ℕ × Item) × ℕ × ℚ
  | y, pg, [] => ([], pg, y)
  | y, pg, it :: rest =>
      if y - 16 < -500 then
        let r := emitRows (-40) (pg + 1) rest
        ((pg, it) :: r.1, r.2)
      else
        let r := emitRows (y - 16) pg rest
        ((pg, it) :: r.1, r.2)

/-- With no logo the first data row is drawn at `y = -126` relative to the
translated origin (`top_y - 76 - 18 - 12 - 6 - 14`, lines 356-387). -/
def firstRowY : ℚ := -126

theorem emitRows_map_snd (items : List Item) :
    ∀ (y : ℚ) (pg : ℕ), ((emitRows y pg items).1.map Prod.snd) = items := by
  induction items with
  | nil => intro y pg; simp [emitRows]
  | cons it rest ih =>
      intro y pg
      simp only [emitRows]
      split_ifs with h
      · simp [ih]
      · simp [ih]

theorem emitRows_page_mono (items : List Item) :
    ∀ (y : ℚ) (pg : ℕ), pg ≤ (emitRows y pg items).2.1 := by
  induction items with
  | nil => intro y pg; simp [emitRows]
  | cons it rest ih =>
      intro y pg
      simp only [emitRows]
      split_ifs with h
      · exact le_trans (Nat.le_succ pg) (ih (-40) (pg + 1))
      · exact ih (y - 16) pg

theorem emitRows_breaks (items : List Item) :
    ∀ (y : ℚ) (pg : ℕ), items ≠ [] → y - 16 * items.length < -500 →
      pg + 1 ≤ (emitRows y pg items).2.1 := by
  induction items with
  | nil => intro y pg hne _; exact absurd rfl hne
  | cons it rest ih =>
      intro y pg _ hlow
      simp only [emitRows]
      split_ifs with h
      · exact emitRows_page_mono rest (-40) (pg + 1)
      · cases rest with
        | nil =>
            exfalso
            simp only [List.length_cons, List.length_nil] at hlow
            push_cast at hlow
            linarith
        | cons r rs =>
            have hlow2 : (y - 16) - 16 * ((r :: rs).length : ℚ) < -500 := by
              simp only [List.length_cons] at hlow ⊢
              push_cast at hlow ⊢
              linarith
            exact ih (y - 16) pg (by simp) hlow2

/-- Claim C3.  If the items list is long enough that the row cursor crosses the
low-water mark `-500` (equivalently: the rows do not all fit above it from the
starting cursor `y`), then a new page boundary is inserted (the final page
counter exceeds the starting one) and every item is still emitted exactly
once, in the original input order, across the pages. -/
theorem pagination_emits_all_once (items : List Item) (y : ℚ)
    (hne : items ≠ []) (hlow : y - 16 * items.length < -500) :
    ((emitRows y 0 items).1.map Prod.snd) = items ∧
      1 ≤ (emitRows y 0 items).2.1 :=
  ⟨emitRows_map_snd items y 0, emitRows_breaks items y 0 hne hlow⟩

def demoItems : List Item :=
  [⟨"Room and Services", 1, 1000⟩, ⟨"Breakfast", 2, 150⟩, ⟨"Laundry", 1, 80⟩]

theorem pagination_emits_all_once_witness :
    ((emitRows (-480) 0 demoItems).1.map Prod.snd) = demoItems ∧
      1 ≤ (emitRows (-480) 0 demoItems).2.1 :=
  pagination_emits_all_once demoItems (-480) (by decide) (by norm_num [demoItems])

/-! Atomicity of a row's drawing operations (C4).

Each row performs five drawing operations (serial number, description,
quantity, rate, amount; lines 397-403) before the cursor is advanced and
the page-break check runs.  `emitOps` tags every drawing operation with
the page it lands on and the (1-based) row index, mirroring the loop:
the page for a row is fixed when the row starts and `showPage` can only
run between rows. -/

inductive RowOp
  | slno
  | descr
  | qty
  | rate
  | amount
  deriving DecidableEq, Repr

def rowOps (pg i : ℕ) : List (ℕ × ℕ × RowOp) :=
  [(pg, i, RowOp.slno), (pg, i, RowOp.descr), (pg, i, RowOp.qty),
   (pg, i, RowOp.rate), (pg, i, RowOp.amount)]

def emitOps : ℚ → ℕ → ℕ → List Item → List (ℕ × ℕ × RowOp)
  | _, _, _, [] => []
  | y, pg, i, _ :: rest =>
      rowOps pg i ++
        (if y - 16 < -500 then emitOps (-40) (pg + 1) (i + 1) rest
         else emitOps (y - 16) pg (i + 1) rest)

theorem emitOps_idx_ge (items : List Item) :
    ∀ (y : ℚ) (pg i : ℕ) (o : ℕ × ℕ × RowOp), o ∈ emitOps y pg i items →
      i ≤ o.2.1 := by
  induction items with
  | nil => intro y pg i o ho; simp [emitOps] at ho
  | cons it rest ih =>
      intro y pg i o ho
      simp only [emitOps, List.mem_append] at ho
      rcases ho with ho | ho
      · simp only [rowOps, List.mem_cons, List.not_mem_nil, or_false] at ho
        rcases ho with h | h | h | h | h <;> subst h <;> simp
      · split_ifs at ho with h
        · exact le_trans (Nat.le_succ i) (ih (-40) (pg + 1) (i + 1) o ho)
        · exact le_trans (Nat.le_succ i) (ih (y - 16) pg (i + 1) o ho)

theorem mem_rowOps_eq {pg i : ℕ} {o : ℕ × ℕ × RowOp} (h : o ∈ rowOps pg i) :
    o.1 = pg ∧ o.2.1 = i := by
  simp only [rowOps, List.mem_cons, List.not_mem_nil, or_false] at h
  rcases h with h | h | h | h | h <;> subst h <;> exact ⟨rfl, rfl⟩

/-- Claim C4.  Any two drawing operations belonging to the same row land on the
same page: whether a row goes on the current page or a new one is settled
before its first drawing operation (the page-break check runs only between
rows), so no item's drawing operations are split across a page boundary. -/
theorem rows_not_split_across_pages (items : List Item) (y : ℚ) (pg i : ℕ)
    (o₁ o₂ : ℕ × ℕ × RowOp)
    (h₁ : o₁ ∈ emitOps y pg i items) (h₂ : o₂ ∈ emitOps y pg i items)
    (hidx : o₁.2.1 = o₂.2.1) : o₁.1 = o₂.1 := by
  induction items generalizing y pg i with
  | nil => simp [emitOps] at h₁
  | cons it rest ih =>
      simp only [emitOps, List.mem_append] at h₁ h₂
      rcases h₁ with h₁ | h₁ <;> rcases h₂ with h₂ | h₂
      · rw [(mem_rowOps_eq h₁).1, (mem_rowOps_eq h₂).1]
      · exfalso
        have e₁ := (mem_rowOps_eq h₁).2
        have e₂ : i + 1 ≤ o₂.2.1 := by
          split_ifs at h₂ with h
          · exact emitOps_idx_ge rest (-40) (pg + 1) (i + 1) o₂ h₂
          · exact emitOps_idx_ge rest (y - 16) pg (i + 1) o₂ h₂
        omega
      · exfalso
        have e₂ := (mem_rowOps_eq h₂).2
        have e₁ : i + 1 ≤ o₁.2.1 := by
          split_ifs at h₁ with h
          · exact emitOps_idx_ge rest (-40) (pg + 1) (i + 1) o₁ h₁
          · exact emitOps_idx_ge rest (y - 16) pg (i + 1) o₁ h₁
        omega
      · split_ifs at h₁ h₂ with h
        · exact ih (-40) (pg + 1) (i + 1) h₁ h₂
        · exact ih (y - 16) pg (i + 1) h₁ h₂

theorem rows_not_split_across_pages_witness :
    ((0 : ℕ), (1 : ℕ), RowOp.slno).1 = ((0 : ℕ), (1 : ℕ), RowOp.amount).1 :=
  rows_not_split_across_pages demoItems (-480) 0 1
    (0, 1, RowOp.slno) (0, 1, RowOp.amount)
    (by decide) (by decide) rfl

/-! Python string primitives used by the generators.

`str.strip` / `str.lower` / `str.startswith` / `str.title` are modelled
over the character list; `random.choice(lst)` is modelled by an oracle
index `i`, reading `lst[i % len(lst)]`, and `random.randint(a, b)` by
`a + n % (b - a + 1)` for an oracle `n`. -/

def pySpace (c : Char) : Bool :=
  c = ' ' || c = '\t' || c = '\n' || c = '\r' || c = '\x0b' || c = '\x0c'

def pyStrip (s : String) : String :=
  ⟨((s.data.dropWhile pySpace).reverse.dropWhile pySpace).reverse⟩

def pyLower (s : String) : String := ⟨s.data.map Char.toLower⟩

def pyStartsWith (s pre : String) : Bool := pre.data.isPrefixOf s.data

def pyTitleGo : Bool → List Char → List Char
  | _, [] => []
  | prevAlpha, c :: cs =>
      (if prevAlpha then c.toLower else c.toUpper) :: pyTitleGo c.isAlpha cs

/-- Python `str.title()`: the first character of every run of letters is
uppercased, the rest lowercased. -/
def pyTitle (s : String) : String := ⟨pyTitleGo false s.data⟩

def pyChoice (l : List String) (i : ℕ) : String := l.getD (i % l.length) ""

theorem pyChoice_mem {l : List String} (hl : l ≠ []) (i : ℕ) :
    pyChoice l i ∈ l := by
  have hpos : 0 < l.length := List.length_pos.mpr hl
  have h : i % l.length < l.length := Nat.mod_lt _ hpos
  unfold pyChoice
  rw [List.getD_eq_getElem l "" h]
  exact List.getElem_mem h

/-- Model of `rand_mobile()` (lines 51-52): `+91-` followed by
`randint(600, 999)`
and `randint(1000000, 9999999)`. -/
def randMobile (a b : ℕ) : String :=
  "+91-" ++ toString (600 + a % 400) ++ toString (1000000 + b % 9000000)

/-! Model of `get_random_address` (lines 57-114). -/

def mumbaiAddrs : List String :=
  ["87 Marine Drive, Mumbai", "14 Bandra Kurla Complex, Mumbai",
   "5 Colaba Causeway, Mumbai", "210 Andheri East, Mumbai"]

/-- The curated city table, in source (insertion) order; the prefix scan
iterates in this order. -/
def cityAddresses : List (String × List String) :=
  [("mumbai", mumbaiAddrs),
   ("delhi",
    ["32 Connaught Place, New Delhi", "108 Lajpat Nagar, New Delhi",
     "9 Patel Nagar, New Delhi", "256 INA Colony, New Delhi"]),
   ("bangalore",
    ["18 MG Road, Bengaluru", "45 Indiranagar, Bengaluru",
     "7 Whitefield Main Road, Bengaluru", "88 Koramangala, Bengaluru"]),
   ("hyderabad",
    ["12 Banjara Hills, Hyderabad", "56 Hitech City Rd, Hyderabad",
     "3 Secunderabad Rd, Hyderabad"]),
   ("chennai",
    ["77 T Nagar, Chennai", "21 Anna Salai, Chennai", "9 Adyar, Chennai"]),
   ("kolkata",
    ["15 Park Street, Kolkata", "88 Salt Lake, Kolkata",
     "22 Ballygunge, Kolkata"]),
   ("pune",
    ["11 FC Road, Pune", "60 Koregaon Park, Pune", "9 Viman Nagar, Pune"]),
   ("indore",
    ["18 MG Road, Indore", "44 Vijay Nagar, Indore", "5 AB Road, Indore"])]

def streetNames : List String :=
  ["Park Lane", "Circuit Avenue", "Industrial Area", "MG Road",
   "Market Street", "Station Road"]

/-- Model of `get_random_address(city)`: the empty city returns the fixed
placeholder;
otherwise `c = city.strip().lower()` is looked up exactly in the table,
then by `c.startswith(key)` over the keys in order, and unknown cities
get a formatted `randint(1,300)`, a chosen street name, a comma and
`city.title()`.
`i` is the oracle for `random.choice` on the address lists, `num` for
`randint(1, 300)` and `sidx` for the street-name choice. -/
def getRandomAddress (city : String) (i num sidx : ℕ) : String :=
  if city = "" then "12 Circuit Avenue, Tech Park, City"
  else
    let c := pyLower (pyStrip city)
    match cityAddresses.find? (fun p => p.1 == c) with
    | some p => pyChoice p.2 i
    | none =>
        match cityAddresses.find? (fun p => pyStartsWith c p.1) with
        | some p => pyChoice p.2 i
        | none =>
            toString (1 + num % 300) ++ " " ++ pyChoice streetNames sidx ++
              ", " ++ pyTitle city

/-- Claim C5.  The address generator returns one of the 4 curated Mumbai entries
for every random choice whenever the normalised city starts with `"mumbai"`
(covering case and trailing text, e.g. `"Mumbai"`, `" MUMBAI "`,
`"mumbai suburbs"`); for the unknown city `"Nowhereville"` it returns a
templated string ending in `"Nowhereville"`; and for the empty city it
returns the fixed generic placeholder. -/
theorem address_generator_spec :
    (∀ (city : String) (i num sidx : ℕ),
        pyStartsWith (pyLower (pyStrip city)) "mumbai" = true →
        getRandomAddress city i num sidx ∈ mumbaiAddrs) ∧
    (∀ i num sidx : ℕ, ∃ p : String,
        getRandomAddress "Nowhereville" i num sidx = p ++ "Nowhereville") ∧
    (∀ i num sidx : ℕ,
        getRandomAddress "" i num sidx = "12 Circuit Avenue, Tech Park, City") := by
  refine ⟨?_, ?_, ?_⟩
  · intro city i num sidx h
    by_cases hcity : city = ""
    · rw [hcity] at h
      exact absurd h (by decide)
    · unfold getRandomAddress
      rw [if_neg hcity]
      cases h1 : cityAddresses.find? (fun p => p.1 == pyLower (pyStrip city)) with
      | some pr =>
          have hmem : pr ∈ cityAddresses := List.mem_of_find?_eq_some h1
          have hbeq := List.find?_some h1
          have heq : pr.1 = pyLower (pyStrip city) := by
            exact eq_of_beq hbeq
          rw [← heq] at h
          simp only [h1]
          simp only [cityAddresses, List.mem_cons, List.not_mem_nil, or_false] at hmem
          rcases hmem with hc | hc | hc | hc | hc | hc | hc | hc <;> subst hc
          · exact pyChoice_mem (by simp [mumbaiAddrs]) i
          all_goals exact absurd h (by decide)
      | none =>
          simp only [h1]
          have h2 : cityAddresses.find?
              (fun p => pyStartsWith (pyLower (pyStrip city)) p.1) =
              some ("mumbai", mumbaiAddrs) :=
            List.find?_cons_of_pos _ h
          simp only [h2]
          exact pyChoice_mem (by simp [mumbaiAddrs]) i
  · intro i num sidx
    have h1 : cityAddresses.find?
        (fun p => p.1 == pyLower (pyStrip "Nowhereville")) = none := by decide
    have h2 : cityAddresses.find?
        (fun p => pyStartsWith (pyLower (pyStrip "Nowhereville")) p.1) = none := by
      decide
    refine ⟨toString (1 + num % 300) ++ " " ++ pyChoice streetNames sidx ++ ", ", ?_⟩
    unfold getRandomAddress
    rw [if_neg (by decide : ¬("Nowhereville" = ""))]
    simp only [h1, h2]
    have h3 : pyTitle "Nowhereville" = "Nowhereville" := by decide
    rw [h3]
  · intro i num sidx
    rfl

theorem address_generator_spec_witness :
    getRandomAddress "Mumbai" 2 0 0 ∈ mumbaiAddrs ∧
    (∃ p : String, getRandomAddress "Nowhereville" 0 5 1 = p ++ "Nowhereville") ∧
    getRandomAddress "" 0 0 0 = "12 Circuit Avenue, Tech Park, City" :=
  ⟨address_generator_spec.1 "Mumbai" 2 0 0 (by decide),
   address_generator_spec.2.1 0 5 1,
   address_generator_spec.2.2 0 0 0⟩

/-! Model of `rand_gst_number` (lines 44-49).

A zero-padded 2-digit `randint(1,35)`, then five `random.choice` picks from the
uppercase alphabet, four from `"0123456789"`, one more letter,
`str(randint(1,9))`, the literal `"Z"` and one final letter.  The string
concatenation is flattened into one character list; each `random.choice`
and `randint` call gets its own oracle. -/

def upperAlpha : List Char := "ABCDEFGHIJKLMNOPQRSTUVWXYZ".data

def decimalDigits : List Char := "0123456789".data

def pyChoiceChar (l : List Char) (i : ℕ) : Char := l.getD (i % l.length) 'A'

def randGstNumber (a l1 l2 l3 l4 l5 d1 d2 d3 d4 l6 d5 l7 : ℕ) : String :=
  ⟨[Nat.digitChar ((1 + a % 35) / 10 % 10), Nat.digitChar ((1 + a % 35) % 10),
    pyChoiceChar upperAlpha l1, pyChoiceChar upperAlpha l2,
    pyChoiceChar upperAlpha l3, pyChoiceChar upperAlpha l4,
    pyChoiceChar upperAlpha l5,
    pyChoiceChar decimalDigits d1, pyChoiceChar decimalDigits d2,
    pyChoiceChar decimalDigits d3, pyChoiceChar decimalDigits d4,
    pyChoiceChar upperAlpha l6,
    Nat.digitChar (1 + d5 % 9), 'Z', pyChoiceChar upperAlpha l7]⟩

/-- The claimed positional pattern: 15 characters, 2 digits, 5 uppercase
letters, 4 digits, 1 uppercase letter, 1 digit, the fixed letter `Z`,
1 uppercase letter. -/
def gstFormatOk (s : String) : Bool :=
  match s.data with
  | [c0, c1, c2, c3, c4, c5, c6, c7, c8, c9, c10, c11, c12, c13, c14] =>
      c0.isDigit && c1.isDigit &&
      c2.isUpper && c3.isUpper && c4.isUpper && c5.isUpper && c6.isUpper &&
      c7.isDigit && c8.isDigit && c9.isDigit && c10.isDigit &&
      c11.isUpper && c12.isDigit && (c13 == 'Z') && c14.isUpper
  | _ => false

theorem digitChar_isDigit {n : ℕ} (h : n < 10) :
    (Nat.digitChar n).isDigit = true := by
  interval_cases n <;> decide

theorem upperAlpha_choice_isUpper (i : ℕ) :
    (pyChoiceChar upperAlpha i).isUpper = true := by
  have hall : ∀ k, k < 26 → (upperAlpha.getD k 'A').isUpper = true := by decide
  have hlen : upperAlpha.length = 26 := by decide
  unfold pyChoiceChar
  exact hall _ (hlen ▸ Nat.mod_lt _ (by rw [hlen]; norm_num))

theorem decimalDigits_choice_isDigit (i : ℕ) :
    (pyChoiceChar decimalDigits i).isDigit = true := by
  have hall : ∀ k, k < 10 → (decimalDigits.getD k 'A').isDigit = true := by decide
  have hlen : decimalDigits.length = 10 := by decide
  unfold pyChoiceChar
  exact hall _ (hlen ▸ Nat.mod_lt _ (by rw [hlen]; norm_num))

/-- Claim C6.  For every random choice, the generated tax ID matches the fixed
positional pattern: 2 digits, 5 uppercase letters, 4 digits, 1 uppercase
letter, 1 digit, the fixed letter `Z`, 1 uppercase letter — 15 characters in
total. -/
theorem gst_format_ok (a l1 l2 l3 l4 l5 d1 d2 d3 d4 l6 d5 l7 : ℕ) :
    gstFormatOk (randGstNumber a l1 l2 l3 l4 l5 d1 d2 d3 d4 l6 d5 l7) = true := by
  unfold randGstNumber gstFormatOk
  simp only [Bool.and_eq_true, beq_iff_eq]
  have h0 : ∀ n : ℕ, (Nat.digitChar (n % 10)).isDigit = true := fun n =>
    digitChar_isDigit (Nat.mod_lt _ (by norm_num))
  exact ⟨⟨⟨⟨⟨⟨⟨⟨⟨⟨⟨⟨⟨⟨h0 _, h0 _⟩,
    upperAlpha_choice_isUpper l1⟩, upperAlpha_choice_isUpper l2⟩,
    upperAlpha_choice_isUpper l3⟩, upperAlpha_choice_isUpper l4⟩,
    upperAlpha_choice_isUpper l5⟩,
    decimalDigits_choice_isDigit d1⟩, decimalDigits_choice_isDigit d2⟩,
    decimalDigits_choice_isDigit d3⟩, decimalDigits_choice_isDigit d4⟩,
    upperAlpha_choice_isUpper l6⟩,
    digitChar_isDigit (by omega)⟩, trivial⟩, upperAlpha_choice_isUpper l7⟩

/-! Model of `fallback_hotel_suggestions` (lines 262-271).

`city.split()[0]` raises `IndexError` when the city has no
whitespace-separated word, so the model returns `Option`.  Each of the 3
candidates draws a name (`random.choice`), a perturbation
`delta = bill_amount * random.uniform(-0.2, 0.2)` (oracle `us j`, with
`|us j| ≤ 1/5` the contract of `uniform`), and a phone; its price is
`max(500, round(bill_amount + delta, 2))`. -/

def pySplitWsGo : List Char → List Char → List String
  | acc, [] => if acc = [] then [] else [⟨acc.reverse⟩]
  | acc, c :: cs =>
      if pySpace c then
        if acc = [] then pySplitWsGo [] cs
        else ⟨acc.reverse⟩ :: pySplitWsGo [] cs
      else pySplitWsGo (c :: acc) cs

/-- Python `str.split()` with no argument: split on whitespace runs,
discarding empty fields. -/
def pySplitWs (s : String) : List String := pySplitWsGo [] s.data

def hotelNames : List String :=
  ["Grand Plaza", "Mirage Residency", "Sunset Suites", "City Comfort",
   "Hotel Aurora", "Royal Stay"]

structure Candidate where
  name : String
  price : ℚ
  phone : String
  deriving DecidableEq, Repr

def fallbackHotelSuggestions (city : String) (bill : ℚ)
    (picks : Fin 3 → ℕ) (us : Fin 3 → ℚ) (ph : Fin 3 → ℕ × ℕ) :
    Option (List Candidate) :=
  match pySplitWs city with
  | [] => none
  | w :: _ =>
      some (List.ofFn fun j : Fin 3 =>
        { name := pyChoice hotelNames (picks j) ++ " " ++ pyTitle w
          price := max 500 (round2 (bill + bill * us j))
          phone := randMobile (ph j).1 (ph j).2 })

theorem fallback_eval (city : String) (bill : ℚ)
    (picks : Fin 3 → ℕ) (us : Fin 3 → ℚ) (ph : Fin 3 → ℕ × ℕ)
    (w : String) (ws : List String) (hsplit : pySplitWs city = w :: ws) :
    fallbackHotelSuggestions city bill picks us ph =
      some (List.ofFn fun j : Fin 3 =>
        Candidate.mk (pyChoice hotelNames (picks j) ++ " " ++ pyTitle w)
          (max 500 (round2 (bill + bill * us j)))
          (randMobile (ph j).1 (ph j).2)) := by
  unfold fallbackHotelSuggestions
  rw [hsplit]

theorem max500_round2_100 : max (500:ℚ) (round2 100) = 500 := by
  have h1 : (100:ℚ) = ((100 : ℤ) : ℚ) := by norm_num
  rw [h1, round2_int]
  norm_num

/-- Claim C8, counterexample.  At city `"Pune"`, bill amount `100` and uniform
draws `0` (which lie inside `[-0.2, 0.2]`), all three candidate prices are
`500`, which is not within ±20% of the bill amount (the band is
`[80, 120]`): the claim as stated fails. -/
theorem fallback_band_counterexample :
    ((fallbackHotelSuggestions "Pune" 100 (fun _ => 0) (fun _ => 0)
        (fun _ => (0, 0))).getD []).map Candidate.price = [500, 500, 500] ∧
      ¬(|(500 : ℚ) - 100| ≤ 100 * (1/5)) := by
  constructor
  · rw [fallback_eval "Pune" 100 (fun _ => 0) (fun _ => 0) (fun _ => (0, 0))
      "Pune" [] (by decide)]
    simp only [Option.getD_some, List.map_ofFn, List.ofFn_succ, List.ofFn_zero,
      Function.comp]
    norm_num [max500_round2_100]
  · rw [abs_of_nonneg (by norm_num : (0:ℚ) ≤ 500 - 100)]
    norm_num

/-- Claim C8, amended.  For every city with at least one whitespace-separated
word, bill amount ≥ 0 and uniform draws in `[-0.2, 0.2]`, the generator
returns exactly 3 candidates; each price equals
`max(500, round2(bill + bill*u))` for its draw `u`, hence lies between `500`
and `max(500, 1.2*bill + 1/200)` — within ±20% of the bill only up to the
clamp at 500 and half-cent rounding. -/
theorem fallback_amended (city : String) (bill : ℚ)
    (picks : Fin 3 → ℕ) (us : Fin 3 → ℚ) (ph : Fin 3 → ℕ × ℕ)
    (w : String) (ws : List String)
    (hsplit : pySplitWs city = w :: ws) (hbill : 0 ≤ bill)
    (hus : ∀ j, |us j| ≤ 1/5) :
    ∃ l, fallbackHotelSuggestions city bill picks us ph = some l ∧
      l.length = 3 ∧
      ∀ c ∈ l, ∃ j : Fin 3,
        c.price = max 500 (round2 (bill + bill * us j)) ∧
        500 ≤ c.price ∧ c.price ≤ max 500 (bill * (6/5) + 1/200) := by
  refine ⟨_, by rw [fallbackHotelSuggestions, hsplit], by simp, ?_⟩
  intro c hc
  rw [List.mem_ofFn] at hc
  obtain ⟨j, hj⟩ := hc
  refine ⟨j, ?_, ?_, ?_⟩
  · rw [← hj]
  · rw [← hj]
    exact le_max_left _ _
  · rw [← hj]
    have h1 : bill * us j ≤ bill * (1/5) :=
      mul_le_mul_of_nonneg_left (le_trans (le_abs_self _) (hus j)) hbill
    have h2 : round2 (bill + bill * us j) ≤ bill * (6/5) + 1/200 := by
      have := round2_le_add (bill + bill * us j)
      linarith
    exact max_le (le_max_left _ _) (le_trans h2 (le_max_right _ _))

theorem fallback_amended_witness :
    ∃ l, fallbackHotelSuggestions "Pune" 1000 (fun _ => 0) (fun _ => 1/10)
        (fun _ => (0, 0)) = some l ∧
      l.length = 3 ∧
      ∀ c ∈ l, ∃ j : Fin 3,
        c.price = max 500 (round2 (1000 + 1000 * (fun _ : Fin 3 => (1:ℚ)/10) j)) ∧
        500 ≤ c.price ∧ c.price ≤ max 500 (1000 * (6/5) + 1/200) :=
  fallback_amended "Pune" 1000 (fun _ => 0) (fun _ => 1/10) (fun _ => (0, 0))
    "Pune" [] (by decide) (by norm_num)
    (fun j => by rw [abs_of_nonneg] <;> norm_num)

theorem fallback_goa_eval :
    fallbackHotelSuggestions "Goa" 100 (fun _ => 0) (fun _ => 0)
        (fun _ => (0, 0)) =
      some [⟨"Grand Plaza Goa", 500, "+91-6001000000"⟩,
        ⟨"Grand Plaza Goa", 500, "+91-6001000000"⟩,
        ⟨"Grand Plaza Goa", 500, "+91-6001000000"⟩] := by
  have hname : pyChoice hotelNames 0 ++ " " ++ pyTitle "Goa" =
      "Grand Plaza Goa" := by decide
  have hphone : randMobile 0 0 = "+91-6001000000" := by decide
  rw [fallback_eval "Goa" 100 (fun _ => 0) (fun _ => 0) (fun _ => (0, 0))
    "Goa" [] (by decide)]
  simp only [List.ofFn_succ, List.ofFn_zero]
  norm_num [hname, hphone, max500_round2_100]

/-- Claim C10.  Whenever the generator returns candidates (the city has at least
one word), every candidate's price is at least 500 and equals the perturbed
bill clamped from below at 500 and rounded to 2 places (clamping before or
after rounding gives the same value).  Moreover, at bill amount 100 the
prices are all 500, exceeding the +20% band (which tops out at 120). -/
theorem fallback_price_min_500 :
    (∀ (city : String) (bill : ℚ) (picks : Fin 3 → ℕ) (us : Fin 3 → ℚ)
        (ph : Fin 3 → ℕ × ℕ) (l : List Candidate),
        fallbackHotelSuggestions city bill picks us ph = some l →
        ∀ c ∈ l, 500 ≤ c.price ∧
          ∃ j : Fin 3, c.price = round2 (max 500 (bill + bill * us j))) ∧
    ((fallbackHotelSuggestions "Goa" 100 (fun _ => 0) (fun _ => 0)
        (fun _ => (0, 0))).getD []).map Candidate.price = [500, 500, 500] := by
  constructor
  · intro city bill picks us ph l hl c hc
    unfold fallbackHotelSuggestions at hl
    cases hsplit : pySplitWs city with
    | nil => rw [hsplit] at hl; exact absurd hl (by simp)
    | cons w ws =>
        rw [hsplit] at hl
        have hl2 : l = List.ofFn fun j : Fin 3 =>
            Candidate.mk (pyChoice hotelNames (picks j) ++ " " ++ pyTitle w)
              (max 500 (round2 (bill + bill * us j)))
              (randMobile (ph j).1 (ph j).2) := by
          injection hl with h
          exact h.symm
        rw [hl2, List.mem_ofFn] at hc
        obtain ⟨j, hj⟩ := hc
        refine ⟨?_, j, ?_⟩
        · rw [← hj]
          exact le_max_left _ _
        · rw [← hj]
          exact max500_round2_comm _
  · rw [fallback_goa_eval]
    decide

theorem fallback_price_min_500_witness :
    500 ≤ (Candidate.mk "Grand Plaza Goa" 500 "+91-6001000000").price :=
  (fallback_price_min_500.1 "Goa" 100 (fun _ => 0) (fun _ => 0)
    (fun _ => (0, 0))
    [⟨"Grand Plaza Goa", 500, "+91-6001000000"⟩,
     ⟨"Grand Plaza Goa", 500, "+91-6001000000"⟩,
     ⟨"Grand Plaza Goa", 500, "+91-6001000000"⟩]
    fallback_goa_eval ⟨"Grand Plaza Goa", 500, "+91-6001000000"⟩ (by decide)).1

/-! Temp font file lifecycle (C9).

`register_font_from_bytes` (lines 274-287) writes the uploaded typeface to
a temp file; if `registerFont` raises it removes the file and re-raises.
In the submit handler (lines 478-561) that exception is caught at line 487
(generation proceeds with the default face and `font_tmp_path` stays
`None`); `create_pdf_bytes` runs inside a try/except whose handler calls
`st.error` and then `raise` (line 550); the temp-file removal
(lines 557-561) comes only after, so it is skipped when rendering raises.
`submittedFlow fontUploaded registerOk pdfOk` abstracts that control flow,
reporting whether a temp file was created, whether it is still on disk when
the handler exits, and whether the handler re-raised. -/

structure FlowOutcome where
  tmpCreated : Bool
  tmpLeft : Bool
  raised : Bool
  deriving DecidableEq, Repr

/-- Result of `register_font_from_bytes`: (temp file still on disk,
path handed back to the handler).  On registration failure the function
removes the file before re-raising. -/
def registerFontOutcome (registerOk : Bool) : Bool × Bool :=
  if registerOk then (true, true) else (false, false)

def submittedFlow (fontUploaded registerOk pdfOk : Bool) : FlowOutcome :=
  if fontUploaded then
    let r := registerFontOutcome registerOk
    if pdfOk then
      if r.2 then ⟨true, false, false⟩
      else ⟨true, r.1, false⟩
    else ⟨true, r.1, true⟩
  else
    if pdfOk then ⟨false, false, false⟩
    else ⟨false, false, true⟩

/-- Claim C9.  The temp font file is removed on the success path and on the
registration-failure path, but on the path where PDF rendering raises after
a successful registration the handler re-raises before the cleanup line:
the temp file is created and left on disk, contradicting "deleted after use
on every exit path". -/
theorem font_tmp_cleanup_paths :
    (submittedFlow true true true).tmpLeft = false ∧
    (submittedFlow true false true).tmpLeft = false ∧
    (submittedFlow true false false).tmpLeft = false ∧
    submittedFlow true true false = ⟨true, true, true⟩ := by
  decide

/-! Enrichment client (C7).

`call_gemini_for_address` (lines 117-188) and `call_gemini_hotel_search`
(lines 191-260).  The external effects are oracles: `apiKey` is
`os.environ.get("GEMINI_API_KEY")`; `sdkText` is the text produced by
whichever SDK call succeeded (`none` when no SDK import/call produced a
value, in which case both functions return `None` — for the hotel search
the `re.search` on `None` raises a `TypeError` that the bare `except`
swallows, and the line loop over `(raw_text or "")` sees no lines);
`jsonLoads` is `json.loads` restricted to the regex-matched fragment
(`none` models a raised `ValueError`, caught by the surrounding `try`).
Values parsed from JSON are modelled by `JVal`. -/

inductive JVal
  | null
  | bool (b : Bool)
  | num (q : ℚ)
  | str (s : String)
  | arr (l : List JVal)
  | obj (fields : List (String × JVal))

/-- Python truthiness of a JSON value. -/
def jTruthy : JVal → Bool
  | JVal.null => false
  | JVal.bool b => b
  | JVal.num q => !(q == 0)
  | JVal.str s => !(s == "")
  | JVal.arr l => !l.isEmpty
  | JVal.obj l => !l.isEmpty

def dq : Char := Char.ofNat 34

def sq : Char := Char.ofNat 39

def allDigits (l : List Char) : Bool := l.all Char.isDigit

def digitsToNat (l : List Char) : ℕ :=
  l.foldl (fun a c => 10 * a + (c.toNat - 48)) 0

/-- Python `float(s)` on the decimal strings reachable at the modelled call
sites (`[-+]?`, digits, one optional dot; `float("")` and any other shape
fails, i.e. raises `ValueError`).  Exponent/`inf`/`nan` forms cannot reach
these call sites because the argument is a price-regex match with commas
removed. -/
def pythonFloat (s : String) : Option ℚ :=
  let t0 := s.data.dropWhile pySpace
  let t := (t0.reverse.dropWhile pySpace).reverse
  let sgn : ℚ × List Char :=
    match t with
    | '+' :: r => (1, r)
    | '-' :: r => (-1, r)
    | r => (1, r)
  let body := sgn.2
  let ip := body.takeWhile (fun c => !(c == '.'))
  let rest := body.drop ip.length
  match rest with
  | [] =>
      if !ip.isEmpty && allDigits ip then some (sgn.1 * digitsToNat ip)
      else none
  | _ :: fp =>
      if !(ip.isEmpty && fp.isEmpty) && allDigits ip && allDigits fp then
        some (sgn.1 * (digitsToNat ip + digitsToNat fp / (10 : ℚ) ^ fp.length))
      else none

/-! The two `re.search` patterns used for JSON extraction.

Hotel search looks for an opening square bracket, optional whitespace, an
opening brace, a lazy body, a closing brace, optional whitespace and a
closing square bracket; the address lookup analogously wraps a quoted
address key, colon and lazily-matched quoted value in braces.  Both are
leftmost matches with a
minimal `.*?`: scan start positions left to right; at a candidate start
match the literal opening, then find the smallest content length whose
suffix begins with the closing sequence. -/

def closeBraceLen (l : List Char) : Option ℕ :=
  match l with
  | '}' :: r =>
      let wsn := (r.takeWhile pySpace).length
      match r.drop wsn with
      | ']' :: _ => some (1 + wsn + 1)
      | _ => none
  | _ => none

def findCloseBrace : List Char → Option (ℕ × ℕ)
  | [] => none
  | c :: r =>
      match closeBraceLen (c :: r) with
      | some n => some (0, n)
      | none =>
          match findCloseBrace r with
          | some (k, n) => some (k + 1, n)
          | none => none

def jsonArrayMatchLen (l : List Char) : Option ℕ :=
  match l with
  | '[' :: r =>
      let wsn := (r.takeWhile pySpace).length
      match r.drop wsn with
      | '{' :: r2 =>
          match findCloseBrace r2 with
          | some (k, n) => some (1 + wsn + 1 + k + n)
          | none => none
      | _ => none
  | _ => none

def reSearchJsonArray : List Char → Option (List Char)
  | [] => none
  | c :: r =>
      match jsonArrayMatchLen (c :: r) with
      | some n => some ((c :: r).take n)
      | none => reSearchJsonArray r

def closeQuoteLen (l : List Char) : Option ℕ :=
  match l with
  | c :: r =>
      if c == dq then
        let wsn := (r.takeWhile pySpace).length
        match r.drop wsn with
        | '}' :: _ => some (1 + wsn + 1)
        | _ => none
      else none
  | [] => none

def findCloseQuote : List Char → Option (ℕ × ℕ)
  | [] => none
  | c :: r =>
      match closeQuoteLen (c :: r) with
      | some n => some (0, n)
      | none =>
          match findCloseQuote r with
          | some (k, n) => some (k + 1, n)
          | none => none

def addressKey : List Char := dq :: ("address".data ++ [dq])

def addressObjMatchLen (l : List Char) : Option ℕ :=
  match l with
  | '{' :: r =>
      let w1 := (r.takeWhile pySpace).length
      let r1 := r.drop w1
      if addressKey.isPrefixOf r1 then
        let r2 := r1.drop addressKey.length
        let w2 := (r2.takeWhile pySpace).length
        match r2.drop w2 with
        | ':' :: r4 =>
            let w3 := (r4.takeWhile pySpace).length
            let r5 := r4.drop w3
            match r5 with
            | c :: r6 =>
                if c == dq then
                  match findCloseQuote r6 with
                  | some (k, n) =>
                      some (1 + w1 + addressKey.length + w2 + 1 + w3 + 1 + k + n)
                  | none => none
                else none
            | [] => none
        | _ => none
      else none
  | _ => none

def reSearchAddressObj : List Char → Option (List Char)
  | [] => none
  | c :: r =>
      match addressObjMatchLen (c :: r) with
      | some n => some ((c :: r).take n)
      | none => reSearchAddressObj r

/-! Python `str.splitlines`. -/

def pySplitLinesGo : List Char → List Char → List (List Char)
  | acc, [] => if acc.isEmpty then [] else [acc.reverse]
  | acc, '\r' :: '\n' :: r => acc.reverse :: pySplitLinesGo [] r
  | acc, '\n' :: r => acc.reverse :: pySplitLinesGo [] r
  | acc, '\r' :: r => acc.reverse :: pySplitLinesGo [] r
  | acc, c :: r => pySplitLinesGo (c :: acc) r

def pySplitLines (s : String) : List String :=
  (pySplitLinesGo [] s.data).map (fun l => ⟨l⟩)

/-! Model of `call_gemini_for_address`. -/

/-- The `try` block at lines 165-174: regex-extract a
braced address-object fragment, `json.loads` it, and return the stripped
address when it is a truthy string.  Every other outcome (no match, loads
failure, missing key, falsy value, or a non-string whose `.strip()` raises
`AttributeError` into the surrounding `except`) falls through to the line
scan, modelled as `none`. -/
def addressJsonBranch (jsonLoads : String → Option JVal) (raw : String) :
    Option String :=
  match reSearchAddressObj raw.data with
  | none => none
  | some frag =>
      match jsonLoads ⟨frag⟩ with
      | some (JVal.obj fields) =>
          match fields.find? (fun p => p.1 == "address") with
          | some (_, JVal.str a) => if a == "" then none else some (pyStrip a)
          | _ => none
      | _ => none

def addrTokens : List String :=
  ["road", "rd", "street", "st", "lane", "drive", "ave", "park", "complex",
   "colaba"]

def leadJunk (c : Char) : Bool :=
  c == dq || c == sq || c == '[' || c == Char.ofNat 123

def trailJunk (c : Char) : Bool :=
  c == dq || c == sq || c == ']' || c == Char.ofNat 125

/-- The two `re.sub` calls at lines 181-182: strip a leading run of
quote/open-bracket characters and a trailing run of quote/close-bracket
characters. -/
def cleanAddrLine (l : List Char) : List Char :=
  ((l.dropWhile leadJunk).reverse.dropWhile trailJunk).reverse

/-- The fallback line scan at lines 177-188: first non-blank line that,
after cleanup, contains a digit or a street token (case-insensitive), or
is shorter than 120 characters. -/
def addressLineScan : List String → Option String
  | [] => none
  | l :: ls =>
      let line := pyStrip l
      if line == "" then addressLineScan ls
      else
        let line2 : String := ⟨cleanAddrLine line.data⟩
        if line2.data.any Char.isDigit ||
            addrTokens.any (fun t => decide (t.data <:+: (pyLower line2).data)) then
          some line2
        else if line2.data.length < 120 then some line2
        else addressLineScan ls

def callGeminiForAddress (apiKey : Option String)
    (jsonLoads : String → Option JVal) (sdkText : Option String) :
    Option String :=
  match apiKey with
  | none => none
  | some _ =>
      match sdkText with
      | none => none
      | some raw =>
          if raw == "" then none
          else
            match addressJsonBranch jsonLoads raw with
            | some a => some a
            | none => addressLineScan (pySplitLines raw)

/-! Model of `call_gemini_hotel_search`. -/

structure Hotel where
  name : JVal
  price : ℚ
  phone : JVal

/-- One element of the parsed JSON array (lines 235-239).  `none` models an
exception inside the `try` (non-dict element, `float` of an unconvertible
value); `phones i` feeds the `rand_mobile()` used when the phone field is
missing or falsy. -/
def jHotelOf (pho : ℕ × ℕ) (h : JVal) : Option Hotel :=
  match h with
  | JVal.obj fields =>
      let getF := fun (k : String) =>
        (fields.find? (fun p => p.1 == k)).map Prod.snd
      let name := (getF "name").getD (JVal.str "<unknown>")
      let ap := (getF "approx_price").getD (JVal.num 0)
      let p2 := (getF "price").getD (JVal.num 0)
      let chosen := if jTruthy ap then ap else p2
      let priceQ : Option ℚ :=
        match chosen with
        | JVal.num q => some q
        | JVal.str s => pythonFloat s
        | JVal.bool b => some (if b then 1 else 0)
        | _ => none
      match priceQ with
      | none => none
      | some q =>
          let phv := (getF "phone").getD JVal.null
          let phone := if jTruthy phv then phv
            else JVal.str (randMobile pho.1 pho.2)
          some ⟨name, q, phone⟩
  | _ => none

def jHotelsOf (phones : ℕ → ℕ × ℕ) : ℕ → List JVal → Option (List Hotel)
  | _, [] => some []
  | i, h :: hs =>
      match jHotelOf (phones i) h with
      | none => none
      | some hot =>
          match jHotelsOf phones (i + 1) hs with
          | none => none
          | some rest => some (hot :: rest)

/-- The `try` block at lines 230-243: regex-extract the array-of-objects
fragment,
`json.loads` it, convert each element; return the hotels when non-empty.
Any exception or an empty result falls through to the line parsing
(`none`). -/
def jsonHotelsBranch (jsonLoads : String → Option JVal)
    (phones : ℕ → ℕ × ℕ) (raw : String) : Option (List Hotel) :=
  match reSearchJsonArray raw.data with
  | none => none
  | some frag =>
      match jsonLoads ⟨frag⟩ with
      | some (JVal.arr hs) =>
          match jHotelsOf phones 0 hs with
          | some hotels => if hotels.isEmpty then none else some hotels
          | none => none
      | _ => none

def dashClass (c : Char) : Bool := c == '-' || c == '–' || c == '—'

/-- Model of `re.split` on a character class: every separator occurrence splits,
empty fields kept. -/
def splitOnPred (p : Char → Bool) : List Char → List Char → List (List Char)
  | acc, [] => [acc.reverse]
  | acc, c :: r =>
      if p c then acc.reverse :: splitOnPred p [] r
      else splitOnPred p (c :: acc) r

def priceClass (c : Char) : Bool := c.isDigit || c == ','

/-- The price pattern search (digits-and-commas run, optional dot and
digits, leftmost):
and commas, optionally extended by a dot and at least one digit. -/
def rePriceSearch : List Char → Option (List Char)
  | [] => none
  | c :: r =>
      if priceClass c then
        let run := (c :: r).takeWhile priceClass
        let rest := (c :: r).drop run.length
        match rest with
        | '.' :: r2 =>
            let fr := r2.takeWhile Char.isDigit
            if fr.isEmpty then some run else some (run ++ '.' :: fr)
        | _ => some run
      else rePriceSearch r

def phoneClass (c : Char) : Bool := c.isDigit || c == '-' || pySpace c

def lastDigitIdx (l : List Char) : Option ℕ :=
  match l.reverse.findIdx? Char.isDigit with
  | some j => some (l.length - 1 - j)
  | none => none

/-- The phone pattern at one start position:
optional `+`, a digit, then greedily at least 7 phone-class characters
ending at the last digit of the maximal run. -/
def rePhoneAt (l : List Char) : Option (List Char) :=
  let pre : List Char × List Char :=
    match l with
    | '+' :: r => (['+'], r)
    | r => ([], r)
  match pre.2 with
  | c :: r2 =>
      if c.isDigit then
        let run := r2.takeWhile phoneClass
        match lastDigitIdx run with
        | some p => if 7 ≤ p + 1 then some (pre.1 ++ c :: run.take (p + 1))
            else none
        | none => none
      else none
  | [] => none

def rePhoneSearch : List Char → Option (List Char)
  | [] => none
  | c :: r =>
      match rePhoneAt (c :: r) with
      | some m => some m
      | none => rePhoneSearch r

/-- One non-blank line of the free-text fallback (lines 250-259): split on
dash-like separators; with at least two fields, the price is
`float(match.replace(",", ""))` when the price regex matches —
**this `float` call sits outside every `try` and raises `ValueError`
when the match is all commas** — else `0.0`; the phone is the stripped
phone match or `rand_mobile()`. -/
def hotelFromLine (pho : ℕ × ℕ) (line : List Char) :
    Except Unit (Option Hotel) :=
  let parts := splitOnPred dashClass [] line
  if parts.length < 2 then Except.ok none
  else
    let name := pyStrip ⟨parts.headD []⟩
    let priceR : Except Unit ℚ :=
      match rePriceSearch (parts.getD 1 []) with
      | some m =>
          match pythonFloat ⟨m.filter (fun c => !(c == ','))⟩ with
          | some q => Except.ok q
          | none => Except.error ()
      | none => Except.ok 0
    match priceR with
    | Except.error _ => Except.error ()
    | Except.ok q =>
        let phone :=
          match rePhoneSearch line with
          | some m =>
              let p := pyStrip ⟨m⟩
              if p == "" then randMobile pho.1 pho.2 else p
          | none => randMobile pho.1 pho.2
        Except.ok (some ⟨JVal.str name, q, JVal.str phone⟩)

def lineHotels (phones : ℕ → ℕ × ℕ) : ℕ → List String → Except Unit (List Hotel)
  | _, [] => Except.ok []
  | i, l :: ls =>
      let line := pyStrip l
      if line == "" then lineHotels phones i ls
      else
        match hotelFromLine (phones i) line.data with
        | Except.error _ => Except.error ()
        | Except.ok none => lineHotels phones i ls
        | Except.ok (some h) =>
            match lineHotels phones (i + 1) ls with
            | Except.error _ => Except.error ()
            | Except.ok hs => Except.ok (h :: hs)

def callGeminiHotelSearch (apiKey : Option String)
    (jsonLoads : String → Option JVal) (sdkText : Option String)
    (phones : ℕ → ℕ × ℕ) : Except Unit (Option (List Hotel)) :=
  match apiKey with
  | none => Except.ok none
  | some _ =>
      match sdkText with
      | none => Except.ok none
      | some raw =>
          match jsonHotelsBranch jsonLoads phones raw with
          | some hotels => Except.ok (some hotels)
          | none =>
              match lineHotels phones 0 (pySplitLines raw) with
              | Except.error _ => Except.error ()
              | Except.ok [] => Except.ok none
              | Except.ok hs => Except.ok (some (hs.take 5))

/-- Claim C7.  When the credential variable is absent both enrichment
operations return nothing (first two conjuncts, the claim's true half).
But the hotel search does **not** never-raise: on the free-text response
line `"Grand Hotel - ,"` the price regex `[\d,]+` matches the lone comma,
`","​.replace(",", "")` is empty, and `float("")` raises `ValueError`
outside every `try`, propagating to the caller (third conjunct). -/
theorem enrichment_key_absent_and_raise :
    (∀ (jsonLoads : String → Option JVal) (sdkText : Option String),
        callGeminiForAddress none jsonLoads sdkText = none) ∧
    (∀ (jsonLoads : String → Option JVal) (sdkText : Option String)
        (phones : ℕ → ℕ × ℕ),
        callGeminiHotelSearch none jsonLoads sdkText phones = Except.ok none) ∧
    (∀ (jsonLoads : String → Option JVal) (phones : ℕ → ℕ × ℕ),
        callGeminiHotelSearch (some "key") jsonLoads
          (some "Grand Hotel - ,") phones = Except.error ()) := by
  refine ⟨fun _ _ => rfl, fun _ _ _ => rfl, fun jsonLoads phones => ?_⟩
  rfl

end HotelBill
